import Mathlib

/-!
Verification of the resumable model-download engine in
`src/notebooks/model_downloader_app.py`.

The Python source is shallowly embedded: each helper becomes a Lean
function over `List Char` / `String`, byte contents are `List Nat`,
the filesystem is an association list from path to content, and the
`download` routine is a pure function of the two HTTP responses it
would observe, returning its result together with the emitted progress
events and the trace of network/filesystem operations.
-/

namespace MD

/-- ASCII whitespace as used by Python `str.strip()` / regex `\s`
(space, tab, newline, carriage return, vertical tab, form feed). -/
def pyIsSpace (c : Char) : Bool :=
  c = ' ' || c = '\t' || c = '\n' || c = '\r' || c = '\x0b' || c = '\x0c'

/-- Drop leading and trailing characters satisfying `p` (Python `strip`). -/
def stripBy (p : Char → Bool) (l : List Char) : List Char :=
  ((l.dropWhile p).reverse.dropWhile p).reverse

/-- Python `str.strip()` (whitespace). -/
def pyStrip (s : String) : String :=
  String.mk (stripBy pyIsSpace s.data)

/-- Single-character `str.replace(a, b)`. -/
def replaceChar (a b : Char) (l : List Char) : List Char :=
  l.map (fun c => if c = a then b else c)

/-- The sanitized character list of `_safe_filename` before the empty fallback. -/
def sanitizedChars (name : String) : List Char :=
  stripBy pyIsSpace (replaceChar '/' '_' (replaceChar '\\' '_' name.data))

/-- Embedding of `_safe_filename`:
`name.replace("\\", "_").replace("/", "_").strip()` with fallback
`"download.bin"` for an empty result. -/
def safeFilename (name : String) : String :=
  if sanitizedChars name = [] then "download.bin" else String.mk (sanitizedChars name)

/-- `pat` occurs as a contiguous prefix of `l` (pointwise equality). -/
def startsWithList (pat l : List Char) : Bool :=
  match pat, l with
  | [], _ => true
  | _ :: _, [] => false
  | p :: ps, c :: cs => p == c && startsWithList ps cs

/-- `pat` occurs as a contiguous substring of `l` (Python `in`). -/
def substrList (pat l : List Char) : Bool :=
  match l with
  | [] => startsWithList pat []
  | _ :: tail => startsWithList pat l || substrList pat tail

/-- Python `pat in s` on strings. -/
def strContains (s pat : String) : Bool :=
  substrList pat.data s.data

/-- Embedding of `_headers_for_url`: the value of the `Authorization`
header the function would install, or `none`.  `civEnv` and `hfEnv` are
the raw `CIVITAI_TOKEN` / `HF_TOKEN` environment values (absent = `""`).
The checks are substring tests against the whole URL string, and the
HF rule overwrites the civitai rule when both fire. -/
def headersForUrl (civEnv hfEnv url : String) : Option String :=
  let civ := pyStrip civEnv
  let h1 : Option String :=
    if strContains url ("civitai.com") && civ ≠ "" then some (("Bearer ") ++ civ) else none
  let hf := pyStrip hfEnv
  if (strContains url ("huggingface.co") || strContains url ("hf.co")) && hf ≠ "" then
    some (("Bearer ") ++ hf)
  else h1

/-- Modelled from the spec: the "host" of a URL, used only to state the
spec's claim that authentication is keyed by hostname.  Everything after
the first `"://"` (if any) up to the first `/`, `?` or `#`. -/
def specHost (url : String) : String :=
  let l := url.data
  let afterScheme :=
    if substrList [':', '/', '/'] l then
      ((l.dropWhile (· ≠ ':')).drop 3)
    else l
  String.mk (afterScheme.takeWhile (fun c => c ≠ '/' && c ≠ '?' && c ≠ '#'))

/-! ### Helper lemmas about stripping and replacing -/

lemma head_dropWhile_false (p : Char → Bool) :
    ∀ (l : List Char) (x : Char) (xs : List Char), l.dropWhile p = x :: xs → p x = false := by
  intro l
  induction l with
  | nil => intro x xs h; simp [List.dropWhile] at h
  | cons a as ih =>
    intro x xs h
    by_cases hp : p a = true
    · rw [List.dropWhile_cons, if_pos hp] at h
      exact ih _ _ h
    · rw [List.dropWhile_cons, if_neg hp] at h
      cases h
      simpa using hp

lemma dropWhile_eq_self_of_headq (p : Char → Bool) (l : List Char)
    (h : ∀ c, l.head? = some c → p c = false) : l.dropWhile p = l := by
  cases l with
  | nil => rfl
  | cons x xs => rw [List.dropWhile_cons, if_neg (by simp [h x rfl])]

lemma stripBy_dropWhile (p : Char → Bool) (l : List Char) :
    (stripBy p l).dropWhile p = stripBy p l := by
  unfold stripBy
  apply dropWhile_eq_self_of_headq
  intro c hc
  rw [List.head?_reverse] at hc
  cases hm : l.dropWhile p with
  | nil => rw [hm] at hc; simp at hc
  | cons x xs =>
    have hx : p x = false := head_dropWhile_false p l x xs hm
    rw [hm, List.reverse_cons, List.dropWhile_append] at hc
    by_cases he : (xs.reverse.dropWhile p).isEmpty = true
    · rw [if_pos he, List.dropWhile_cons, if_neg (by simp [hx])] at hc
      simp only [List.getLast?_singleton, Option.some.injEq] at hc
      exact hc ▸ hx
    · rw [if_neg he, List.getLast?_concat] at hc
      injection hc with h2
      exact h2 ▸ hx

lemma stripBy_idem (p : Char → Bool) (l : List Char) :
    stripBy p (stripBy p l) = stripBy p l := by
  conv_lhs => rw [stripBy, stripBy_dropWhile]
  rw [stripBy, List.reverse_reverse, List.dropWhile_idempotent]

lemma mem_stripBy (p : Char → Bool) (c : Char) (l : List Char) (h : c ∈ stripBy p l) : c ∈ l := by
  unfold stripBy at h
  rw [List.mem_reverse] at h
  have h1 := List.dropWhile_sublist (l := (l.dropWhile p).reverse) (p := p) |>.mem h
  rw [List.mem_reverse] at h1
  exact (List.dropWhile_sublist (l := l) (p := p)).mem h1

lemma mem_replaceChar (a b c : Char) (l : List Char) (h : c ∈ replaceChar a b l) :
    c = b ∨ (c ∈ l ∧ c ≠ a) := by
  unfold replaceChar at h
  rw [List.mem_map] at h
  obtain ⟨x, hx, hxc⟩ := h
  by_cases hxa : x = a
  · left; rw [if_pos hxa] at hxc; exact hxc.symm
  · right; rw [if_neg hxa] at hxc; exact ⟨hxc ▸ hx, hxc ▸ hxa⟩

lemma map_id_of_mem (f : Char → Char) (l : List Char) (h : ∀ c ∈ l, f c = c) :
    l.map f = l := by
  induction l with
  | nil => rfl
  | cons x xs ih =>
    rw [List.map_cons, h x (List.mem_cons_self x xs), ih (fun c hc => h c (List.mem_cons_of_mem x hc))]

lemma replaceChar_eq_self (a b : Char) (l : List Char) (h : ∀ c ∈ l, c ≠ a) :
    replaceChar a b l = l :=
  map_id_of_mem _ _ (fun c hc => if_neg (h c hc))

lemma mem_sanitizedChars (c : Char) (s : String) (h : c ∈ sanitizedChars s) :
    c ≠ '/' ∧ c ≠ '\\' := by
  have h1 := mem_stripBy _ _ _ h
  rcases mem_replaceChar _ _ _ _ h1 with h2 | ⟨h2, h3⟩
  · subst h2; exact ⟨by decide, by decide⟩
  · rcases mem_replaceChar _ _ _ _ h2 with h4 | ⟨_, h5⟩
    · subst h4; exact ⟨by decide, by decide⟩
    · exact ⟨h3, h5⟩

lemma substrList_single_false (a : Char) (l : List Char) (h : ∀ c ∈ l, c ≠ a) :
    substrList [a] l = false := by
  induction l with
  | nil => rfl
  | cons x xs ih =>
    rw [substrList]
    have hx : (a == x) = false :=
      beq_eq_false_iff_ne.mpr (fun hax => h x (List.mem_cons_self x xs) hax.symm)
    simp only [startsWithList, hx, Bool.false_and, Bool.false_or]
    exact ih (fun c hc => h c (List.mem_cons_of_mem x hc))

lemma sanitizedChars_of_sanitized (s : String) :
    sanitizedChars (String.mk (sanitizedChars s)) = sanitizedChars s := by
  conv_lhs => rw [sanitizedChars]
  dsimp only
  rw [replaceChar_eq_self _ _ _ (fun c hc => (mem_sanitizedChars c s hc).2)]
  rw [replaceChar_eq_self _ _ _ (fun c hc => (mem_sanitizedChars c s hc).1)]
  exact stripBy_idem _ _

lemma stripBy_eq_nil_forall (p : Char → Bool) (l : List Char) (h : stripBy p l = []) :
    ∀ c ∈ l, p c = true := by
  intro c hc
  have hrev : (l.dropWhile p).reverse.dropWhile p = [] := by
    unfold stripBy at h
    exact List.reverse_eq_nil_iff.mp h
  have hdrop : ∀ x ∈ l.dropWhile p, p x = true := fun x hx =>
    List.dropWhile_eq_nil_iff.mp hrev x (List.mem_reverse.mpr hx)
  rw [← List.takeWhile_append_dropWhile (p := p) (l := l)] at hc
  rcases List.mem_append.mp hc with h1 | h1
  · exact List.mem_takeWhile_imp h1
  · exact hdrop c h1

/-- C7: `_safe_filename` is idempotent, its output never contains a forward
or backward slash (so it never denotes a multi-segment path), and an empty
or all-whitespace input yields `download.bin`. -/
theorem c7_safe_filename_idempotent (s : String) :
    safeFilename (safeFilename s) = safeFilename s ∧
    strContains (safeFilename s) ("/") = false ∧
    strContains (safeFilename s) ("\\") = false ∧
    (pyStrip s = "" → safeFilename s = "download.bin") := by
  have hcase : safeFilename s = "download.bin" ∨
      (sanitizedChars s ≠ [] ∧ safeFilename s = String.mk (sanitizedChars s)) := by
    by_cases h : sanitizedChars s = []
    · left; rw [safeFilename, if_pos h]
    · right; exact ⟨h, by rw [safeFilename, if_neg h]⟩
  refine ⟨?_, ?_, ?_, ?_⟩
  · rcases hcase with h | ⟨hne, h⟩
    · rw [h]; decide
    · rw [h, safeFilename, sanitizedChars_of_sanitized s, if_neg hne]
  · rcases hcase with h | ⟨_, h⟩
    · rw [h]; decide
    · rw [h]
      exact substrList_single_false _ _ (fun c hc => (mem_sanitizedChars c s hc).1)
  · rcases hcase with h | ⟨_, h⟩
    · rw [h]; decide
    · rw [h]
      exact substrList_single_false _ _ (fun c hc => (mem_sanitizedChars c s hc).2)
  · intro h
    have hnil : stripBy pyIsSpace s.data = [] := by
      have hd : (pyStrip s).data = ("" : String).data := by rw [h]
      simpa [pyStrip] using hd
    have hall : ∀ c ∈ s.data, pyIsSpace c = true := stripBy_eq_nil_forall _ _ hnil
    have r1 : replaceChar '\\' '_' s.data = s.data :=
      replaceChar_eq_self _ _ _ (fun c hc hceq => by
        subst hceq; exact absurd (hall _ hc) (by decide))
    have r2 : replaceChar '/' '_' s.data = s.data :=
      replaceChar_eq_self _ _ _ (fun c hc hceq => by
        subst hceq; exact absurd (hall _ hc) (by decide))
    rw [safeFilename, if_pos (by rw [sanitizedChars, r1, r2]; exact hnil)]

/-- C7 witness: concrete instance of the hypothesis-guarded conjunct. -/
theorem c7_safe_filename_idempotent_witness :
    pyStrip ("  ") = "" ∧ safeFilename ("  ") = "download.bin" :=
  ⟨by decide, (c7_safe_filename_idempotent ("  ")).2.2.2 (by decide)⟩

/-- C4 counterexample: `_headers_for_url` keys its check on the **whole URL
string**, not on the host.  For a URL whose host is `example.com` but whose
path mentions `civitai.com`, the bearer header is set although the host
contains none of the first-party patterns, refuting the claim as stated. -/
theorem c4_headers_counterexample :
    headersForUrl ("tok") ("") ("https://example.com/civitai.com") =
      some ("Bearer tok") ∧
    specHost ("https://example.com/civitai.com") = "example.com" ∧
    strContains (specHost ("https://example.com/civitai.com")) ("civitai.com") = false ∧
    strContains (specHost ("https://example.com/civitai.com")) ("huggingface.co") = false ∧
    strContains (specHost ("https://example.com/civitai.com")) ("hf.co") = false := by
  decide

/-- C4 amended: the bearer `Authorization` header is set iff the **full URL
string** (anywhere, including path and query) contains a first-party pattern
and the corresponding stripped credential is non-empty, and its value is
always the **corresponding** credential: whenever the HF rule fires (an
`huggingface.co`/`hf.co` pattern with a non-empty HF token) the header is
`Bearer <hf>` — even if the civitai rule also fires, so the HF rule wins —
the header is `Bearer <civ>` exactly when the civitai rule fires and the HF
rule does not, and with no rule firing (in particular with no credentials
configured) the request goes out unauthenticated (`none`), never an error. -/
theorem c4_headers_amended (civ hf url : String) :
    (((strContains url ("huggingface.co") = true ∨ strContains url ("hf.co") = true) ∧
        pyStrip hf ≠ "") →
      headersForUrl civ hf url = some (("Bearer ") ++ pyStrip hf)) ∧
    (¬((strContains url ("huggingface.co") = true ∨ strContains url ("hf.co") = true) ∧
        pyStrip hf ≠ "") →
      (strContains url ("civitai.com") = true ∧ pyStrip civ ≠ "") →
      headersForUrl civ hf url = some (("Bearer ") ++ pyStrip civ)) ∧
    (¬((strContains url ("huggingface.co") = true ∨ strContains url ("hf.co") = true) ∧
        pyStrip hf ≠ "") →
      ¬(strContains url ("civitai.com") = true ∧ pyStrip civ ≠ "") →
      headersForUrl civ hf url = none) ∧
    ((headersForUrl civ hf url).isSome = true ↔
      ((strContains url ("civitai.com") = true ∧ pyStrip civ ≠ "") ∨
       ((strContains url ("huggingface.co") = true ∨ strContains url ("hf.co") = true) ∧
        pyStrip hf ≠ ""))) := by
  have hfb : (((strContains url ("huggingface.co") || strContains url ("hf.co")) &&
        decide (pyStrip hf ≠ "")) = true) ↔
      ((strContains url ("huggingface.co") = true ∨ strContains url ("hf.co") = true) ∧
        pyStrip hf ≠ "") := by
    simp [Bool.and_eq_true, Bool.or_eq_true]
  have hcb : ((strContains url ("civitai.com") && decide (pyStrip civ ≠ "")) = true) ↔
      (strContains url ("civitai.com") = true ∧ pyStrip civ ≠ "") := by
    simp [Bool.and_eq_true]
  refine ⟨?_, ?_, ?_, ?_⟩
  · intro h
    simp only [headersForUrl]
    rw [if_pos (hfb.mpr h)]
  · intro hnf hc
    simp only [headersForUrl]
    rw [if_neg (fun hb => hnf (hfb.mp hb)), if_pos (hcb.mpr hc)]
  · intro hnf hnc
    simp only [headersForUrl]
    rw [if_neg (fun hb => hnf (hfb.mp hb)), if_neg (fun hb => hnc (hcb.mp hb))]
  · constructor
    · intro h
      by_cases hb : ((strContains url ("huggingface.co") || strContains url ("hf.co")) &&
          decide (pyStrip hf ≠ "")) = true
      · right
        exact hfb.mp hb
      · left
        simp only [headersForUrl] at h
        rw [if_neg hb] at h
        by_cases hc2 : (strContains url ("civitai.com") && decide (pyStrip civ ≠ "")) = true
        · exact hcb.mp hc2
        · rw [if_neg hc2] at h
          simp at h
    · rintro (hc | hfc)
      · by_cases hb : ((strContains url ("huggingface.co") || strContains url ("hf.co")) &&
            decide (pyStrip hf ≠ "")) = true
        · simp only [headersForUrl]
          rw [if_pos hb]
          rfl
        · simp only [headersForUrl]
          rw [if_neg hb, if_pos (hcb.mpr hc)]
          rfl
      · simp only [headersForUrl]
        rw [if_pos (hfb.mpr hfc)]
        rfl

/-- C4 amended witness: a URL matching **both** providers' patterns with both
credentials configured gets the HF credential — the HF rule wins. -/
theorem c4_headers_amended_witness :
    ((strContains ("https://huggingface.co/x?from=civitai.com") ("huggingface.co") = true ∨
        strContains ("https://huggingface.co/x?from=civitai.com") ("hf.co") = true) ∧
      pyStrip ("htok") ≠ "" ∧
      strContains ("https://huggingface.co/x?from=civitai.com") ("civitai.com") = true ∧
      pyStrip ("ctok") ≠ "") ∧
    headersForUrl ("ctok") ("htok") ("https://huggingface.co/x?from=civitai.com") =
      some (("Bearer ") ++ pyStrip ("htok")) :=
  ⟨⟨Or.inl (by decide), by decide, by decide, by decide⟩,
    (c4_headers_amended ("ctok") ("htok") ("https://huggingface.co/x?from=civitai.com")).1
      ⟨Or.inl (by decide), by decide⟩⟩

/-! ### Filename resolution (`_filename_from_cd` and the URL fallback) -/

/-- The double-quote character. -/
def quoteChar : Char := Char.ofNat 34

/-- The apostrophe character. -/
def apos : Char := Char.ofNat 39

/-- Match a literal pattern case-insensitively at the head of the input,
returning the rest of the input (re.IGNORECASE on ASCII). -/
def matchCI : List Char → List Char → Option (List Char)
  | [], l => some l
  | _ :: _, [] => none
  | p :: ps, c :: cs => if p.toLower = c.toLower then matchCI ps cs else none

/-- `re.search` driver: try the single-position matcher `f` at every start
position, leftmost first. -/
def searchOpt (f : List Char → Option (List Char)) : List Char → Option (List Char)
  | [] => f []
  | c :: rest =>
    match f (c :: rest) with
    | some r => some r
    | none => searchOpt f rest

/-- The literal `filename*`. -/
def extLit : List Char := ['f', 'i', 'l', 'e', 'n', 'a', 'm', 'e', '*']

/-- The literal `UTF-8''` (lowercased). -/
def utf8Lit : List Char := ['u', 't', 'f', '-', '8', apos, apos]

/-- The literal `filename`. -/
def fnLit : List Char := ['f', 'i', 'l', 'e', 'n', 'a', 'm', 'e']

/-- One-position matcher for `filename\*\s*=\s*UTF-8''([^;]+)` returning the
capture group. -/
def extAt (l : List Char) : Option (List Char) :=
  (matchCI extLit l).bind fun r1 =>
    match r1.dropWhile pyIsSpace with
    | '=' :: r2 =>
      (matchCI utf8Lit (r2.dropWhile pyIsSpace)).bind fun r3 =>
        let cap := r3.takeWhile (fun c => c ≠ ';')
        if cap = [] then none else some cap
    | _ => none

/-- One-position matcher for `filename\s*=\s*"([^"]+)"` returning the capture
group (the closing quote must exist). -/
def quotedAt (l : List Char) : Option (List Char) :=
  (matchCI fnLit l).bind fun r1 =>
    match r1.dropWhile pyIsSpace with
    | '=' :: r2 =>
      match r2.dropWhile pyIsSpace with
      | c2 :: r3 =>
        if c2 = quoteChar then
          let cap := r3.takeWhile (fun c => c ≠ quoteChar)
          let rest := r3.dropWhile (fun c => c ≠ quoteChar)
          if cap ≠ [] ∧ rest ≠ [] then some cap else none
        else none
      | [] => none
    | _ => none

/-- One-position matcher for `filename\s*=\s*([^;]+)`.  The greedy `\s*`
backtracks one character when the remainder up to `;` would be empty, exactly
as the Python regex engine does. -/
def bareAt (l : List Char) : Option (List Char) :=
  (matchCI fnLit l).bind fun r1 =>
    match r1.dropWhile pyIsSpace with
    | '=' :: r2 =>
      let cap := (r2.dropWhile pyIsSpace).takeWhile (fun c => c ≠ ';')
      if cap ≠ [] then some cap
      else
        match (r2.takeWhile pyIsSpace).getLast? with
        | some lc => some [lc]
        | none => none
    | _ => none

/-- ASCII hex digit. -/
def isHexDigitCh (c : Char) : Bool :=
  ('0' ≤ c && c ≤ '9') || ('a' ≤ c && c ≤ 'f') || ('A' ≤ c && c ≤ 'F')

/-- Value of an ASCII hex digit. -/
def hexVal (c : Char) : Nat :=
  if '0' ≤ c && c ≤ '9' then c.toNat - '0'.toNat
  else if 'a' ≤ c && c ≤ 'f' then c.toNat - 'a'.toNat + 10
  else if 'A' ≤ c && c ≤ 'F' then c.toNat - 'A'.toNat + 10
  else 0

/-- Character-level model of `urllib.parse.unquote`: a `%` followed by two
hex digits becomes the character of that code, everything else is kept.
(Multi-byte UTF-8 escape sequences are kept as raw byte-valued characters
instead of being combined; the claims here do not depend on that.) -/
def unquoteList : List Char → List Char
  | [] => []
  | '%' :: a :: b :: rest =>
    if isHexDigitCh a && isHexDigitCh b then
      Char.ofNat (16 * hexVal a + hexVal b) :: unquoteList rest
    else '%' :: unquoteList (a :: b :: rest)
  | c :: rest => c :: unquoteList rest

/-- Python `str.strip(q)` for a single strip character. -/
def stripChar (q : Char) (l : List Char) : List Char :=
  stripBy (fun c => c = q) l

/-- Split a character list on `/`. -/
def splitOnSlash : List Char → List (List Char)
  | [] => [[]]
  | x :: xs =>
    let r := splitOnSlash xs
    if x = '/' then [] :: r
    else
      match r with
      | [] => [[x]]
      | h :: t => (x :: h) :: t

/-- `pathlib.PurePosixPath(s).name`: the last path component after dropping
empty and `.` components (checked against CPython on the edge cases used
here, including `..`, trailing slashes and the empty path). -/
def posixName (s : String) : String :=
  String.mk (((splitOnSlash s.data).filter (fun c => c ≠ [] ∧ c ≠ ['.'])).getLastD [])

/-- Embedding of `_filename_from_cd`: extended form first (stripped,
quote-stripped, percent-decoded, basename), then the quoted form (basename
only), then the bare form (stripped, quote-stripped, basename). -/
def filenameFromCd (cd : Option String) : Option String :=
  match cd with
  | none => none
  | some s =>
    if s = "" then none
    else
      match searchOpt extAt s.data with
      | some cap =>
        some (posixName (String.mk (unquoteList (stripChar quoteChar (stripBy pyIsSpace cap)))))
      | none =>
        match searchOpt quotedAt s.data with
        | some cap => some (posixName (String.mk cap))
        | none =>
          match searchOpt bareAt s.data with
          | some cap => some (posixName (String.mk (stripChar quoteChar (stripBy pyIsSpace cap))))
          | none => none

/-- `url.split("?")[0].rstrip("/").split("/")[-1]`. -/
def urlLastSegment (url : String) : String :=
  let noQuery := url.data.takeWhile (fun c => c ≠ '?')
  let trimmed := (noQuery.reverse.dropWhile (fun c => c = '/')).reverse
  String.mk ((trimmed.reverse.takeWhile (fun c => c ≠ '/')).reverse)

/-- The filename resolution chain of `download` (source lines 133-139):
override, else Content-Disposition, else last URL segment, else
`download.bin`, all falsy-tested, then `_safe_filename`. -/
def resolveFilename (override : Option String) (cd : Option String) (url : String) : String :=
  let f1 := override.getD ""
  let f2 := if f1 = "" then (filenameFromCd cd).getD "" else f1
  let f3 :=
    if f2 = "" then (if urlLastSegment url = "" then "download.bin" else urlLastSegment url)
    else f2
  safeFilename f3

/-- C5: the resolved filename follows the priority order: non-empty caller
override first; else the Content-Disposition parse (extended form with
percent-decoding, then quoted, then bare, basename retained); else the last
URL path segment (query removed, trailing slashes trimmed); else the literal
`download.bin`; sanitization is applied to the winning candidate. -/
theorem c5_filename_priority (override cd : Option String) (url : String) :
    (∀ o, override = some o → o ≠ "" →
      resolveFilename override cd url = safeFilename o) ∧
    (override.getD "" = "" → ∀ n, filenameFromCd cd = some n → n ≠ "" →
      resolveFilename override cd url = safeFilename n) ∧
    (override.getD "" = "" → (filenameFromCd cd).getD "" = "" → urlLastSegment url ≠ "" →
      resolveFilename override cd url = safeFilename (urlLastSegment url)) ∧
    (override.getD "" = "" → (filenameFromCd cd).getD "" = "" → urlLastSegment url = "" →
      resolveFilename override cd url = "download.bin") ∧
    (∀ s cap, cd = some s → s ≠ "" → searchOpt extAt s.data = some cap →
      filenameFromCd cd =
        some (posixName (String.mk (unquoteList (stripChar quoteChar (stripBy pyIsSpace cap)))))) ∧
    (∀ s cap, cd = some s → s ≠ "" → searchOpt extAt s.data = none →
      searchOpt quotedAt s.data = some cap →
      filenameFromCd cd = some (posixName (String.mk cap))) ∧
    (∀ s cap, cd = some s → s ≠ "" → searchOpt extAt s.data = none →
      searchOpt quotedAt s.data = none → searchOpt bareAt s.data = some cap →
      filenameFromCd cd = some (posixName (String.mk (stripChar quoteChar (stripBy pyIsSpace cap))))) := by
  refine ⟨?_, ?_, ?_, ?_, ?_, ?_, ?_⟩
  · intro o ho hne
    subst ho
    simp only [resolveFilename, Option.getD_some]
    rw [if_neg hne, if_neg hne]
  · intro h1 n hcd hn
    simp only [resolveFilename]
    rw [if_pos h1, hcd, Option.getD_some, if_neg hn]
  · intro h1 h2 h3
    simp only [resolveFilename]
    rw [if_pos h1, if_pos h2, if_neg h3]
  · intro h1 h2 h3
    simp only [resolveFilename]
    rw [if_pos h1, if_pos h2, if_pos h3]
    decide
  · intro s cap hcd hs hext
    subst hcd
    simp only [filenameFromCd]
    rw [if_neg hs, hext]
  · intro s cap hcd hs hext hq
    subst hcd
    simp only [filenameFromCd]
    rw [if_neg hs, hext, hq]
  · intro s cap hcd hs hext hq hb
    subst hcd
    simp only [filenameFromCd]
    rw [if_neg hs, hext, hq, hb]

/-- C5 witness: a non-empty override wins and is sanitized. -/
theorem c5_filename_priority_witness :
    (("x y.bin" : String) ≠ "") ∧
    resolveFilename (some ("x y.bin")) (some ("filename=other.bin")) ("http://h/u.bin") =
      safeFilename ("x y.bin") :=
  ⟨by decide,
    (c5_filename_priority (some ("x y.bin")) (some ("filename=other.bin")) ("http://h/u.bin")).1
      ("x y.bin") rfl (by decide)⟩

/-! ### The transfer engine `download` -/

/-- The fixed folder map keys (source `folders` dict). -/
def folderKeys : List String :=
  ["checkpoints", "loras", "vae", "controlnet", "ipadapter", "clip_vision",
   "text_encoders", "diffusion_models", "unet"]

/-- Destination directory of a folder key. -/
def folderDir (k : String) : String := ("/workspace/ComfyUI/models/") ++ k

/-- Filesystem model: association list from path to byte content. -/
abbrev Fs := List (String × List Nat)

def fsLookup (fs : Fs) (p : String) : Option (List Nat) :=
  match fs with
  | [] => none
  | (q, v) :: rest => if q = p then some v else fsLookup rest p

def fsErase (fs : Fs) (p : String) : Fs :=
  fs.filter (fun e => e.1 ≠ p)

def fsInsert (fs : Fs) (p : String) (v : List Nat) : Fs :=
  fsErase fs p ++ [(p, v)]

/-- `path.stat().st_size` with 0 for a missing file. -/
def fileSize (fs : Fs) (p : String) : Nat := ((fsLookup fs p).getD []).length

/-- One progress-callback invocation
`progress_cb(downloaded, total, filename, phase)`. -/
structure Event where
  downloaded : Nat
  total : Option Nat
  filename : String
  phase : String
deriving DecidableEq, Repr

/-- Network / filesystem operations performed by `download`, in order. -/
inductive Op where
  | get (url : String) (auth : Option String) (range : Option Nat)
  | unlink (p : String)
  | openW (p : String) (trunc : Bool)
  | write (p : String) (chunk : List Nat)
  | rename (src dst : String)
deriving DecidableEq, Repr

/-- The probe response (only the fields the code reads). -/
structure ProbeResp where
  status : Nat
  contentDisposition : Option String
  contentLength : Option Nat

/-- The transfer response: status code and the streamed chunks. -/
structure XferResp where
  status : Nat
  chunks : List (List Nat)

/-- Result of a `download` call: the returned path or the propagated error,
the final filesystem, the emitted events, and the operation trace. -/
structure DlResult where
  res : Except String String
  fs : Fs
  events : List Event
  ops : List Op

/-- `dest = dest_dir / filename`. -/
def destOf (folderKey filename : String) : String :=
  folderDir folderKey ++ ("/") ++ filename

/-- `tmp = dest.with_suffix(dest.suffix + ".part")`, which always equals
`dest + ".part"` (the old suffix is replaced by itself plus `.part`). -/
def tmpOf (dest : String) : String := dest ++ (".part")

/-- `total = (int(cl) + existing) if (cl and existing) else (int(cl) if cl else None)`. -/
def computeTotal (cl : Option Nat) (existing : Nat) : Option Nat :=
  match cl with
  | some v => if existing ≠ 0 then some (v + existing) else some v
  | none => none

/-- The chunk-streaming loop (source lines 180-191): skip empty chunks,
write each chunk, advance `wrote`, and emit a throttled `downloading` event.
`throttle i` abstracts the `now - last_ui >= 0.15` time gate at chunk `i`. -/
def streamChunks (tmp filename : String) (total : Option Nat) (throttle : Nat → Bool) :
    List (Nat × List Nat) → List Nat → Nat → List Nat × Nat × List Event × List Op
  | [], content, wrote => (content, wrote, [], [])
  | (i, ch) :: rest, content, wrote =>
    if ch = [] then streamChunks tmp filename total throttle rest content wrote
    else
      let wrote2 := wrote + ch.length
      let r := streamChunks tmp filename total throttle rest (content ++ ch) wrote2
      (r.1, r.2.1,
        (if throttle i then [⟨wrote2, total, filename, ("downloading")⟩] else []) ++ r.2.2.1,
        Op.write tmp ch :: r.2.2.2)

/-- Embedding of `download` (source lines 109-196).  `civ`/`hf` are the token
environment values, `probe` and `xfer` the two HTTP responses the server
would give, `throttle` the per-chunk state of the UI-throttle time gate, and
`renameOk` whether the final rename succeeds. -/
def download (civ hf : String) (probe : ProbeResp) (xfer : XferResp)
    (throttle : Nat → Bool) (renameOk : Bool)
    (url folderKey : String) (filenameOverride : Option String) (overwrite : Bool)
    (fs : Fs) : DlResult :=
  if folderKey ∉ folderKeys then ⟨.error ("ValueError: bad folder_key"), fs, [], []⟩
  else
    let ops0 : List Op := [Op.get url (headersForUrl civ hf url) none]
    if probe.status ≥ 400 then ⟨.error ("HTTPError: probe"), fs, [], ops0⟩
    else
      let filename := resolveFilename filenameOverride probe.contentDisposition url
      let dest := destOf folderKey filename
      let tmp := tmpOf dest
      if (fsLookup fs dest).isSome ∧ ¬ overwrite then
        ⟨.ok dest, fs, [⟨fileSize fs dest, some (fileSize fs dest), filename, ("skipped")⟩], ops0⟩
      else
        let fs1 := if (fsLookup fs dest).isSome ∧ overwrite then fsErase fs dest else fs
        let ops1 := if (fsLookup fs dest).isSome ∧ overwrite then ops0 ++ [Op.unlink dest] else ops0
        let existing := fileSize fs1 tmp
        let total := computeTotal probe.contentLength existing
        let evStart : Event := ⟨existing, total, filename, ("start")⟩
        let ops2 := ops1 ++
          [Op.get url (headersForUrl civ hf url) (if existing > 0 then some existing else none)]
        let restarted := existing > 0 ∧ xfer.status = 200
        let existing2 := if restarted then 0 else existing
        let append2 := if restarted then false else decide (existing > 0)
        let evRestart : List Event := if restarted then [⟨0, total, filename, ("restart")⟩] else []
        if xfer.status ≥ 400 then
          ⟨.error ("HTTPError: transfer"), fs1, evStart :: evRestart, ops2⟩
        else
          let initContent := if append2 then (fsLookup fs1 tmp).getD [] else []
          let ops3 := ops2 ++ [Op.openW tmp (! append2)]
          let st := streamChunks tmp filename total throttle xfer.chunks.enum initContent existing2
          let fs2 := fsInsert fs1 tmp st.1
          if renameOk then
            ⟨.ok dest, fsInsert (fsErase fs2 tmp) dest st.1,
              evStart :: evRestart ++ st.2.2.1 ++
                [⟨st.1.length, some st.1.length, filename, ("done")⟩],
              ops3 ++ st.2.2.2 ++ [Op.rename tmp dest]⟩
          else
            ⟨.error ("OSError: rename"), fs2, evStart :: evRestart ++ st.2.2.1,
              ops3 ++ st.2.2.2 ++ [Op.rename tmp dest]⟩

/-! ### Infrastructure lemmas for the engine -/

lemma fsLookup_cons (r : String) (v : List Nat) (rest : Fs) (q : String) :
    fsLookup ((r, v) :: rest) q = if r = q then some v else fsLookup rest q := rfl

lemma fsErase_cons (r : String) (v : List Nat) (rest : Fs) (p : String) :
    fsErase ((r, v) :: rest) p =
      if r = p then fsErase rest p else (r, v) :: fsErase rest p := by
  by_cases hr : r = p <;> simp [fsErase, List.filter_cons, hr]

lemma fsLookup_fsErase_ne (fs : Fs) (p q : String) (h : q ≠ p) :
    fsLookup (fsErase fs p) q = fsLookup fs q := by
  induction fs with
  | nil => rfl
  | cons e rest ih =>
    obtain ⟨r, v⟩ := e
    rw [fsErase_cons]
    by_cases hr : r = p
    · rw [if_pos hr, ih, fsLookup_cons, if_neg (fun hrq => h (hrq.symm.trans hr))]
    · rw [if_neg hr, fsLookup_cons, fsLookup_cons, ih]

lemma fsLookup_fsErase_self (fs : Fs) (p : String) :
    fsLookup (fsErase fs p) p = none := by
  induction fs with
  | nil => rfl
  | cons e rest ih =>
    obtain ⟨r, v⟩ := e
    rw [fsErase_cons]
    by_cases hr : r = p
    · rw [if_pos hr]; exact ih
    · rw [if_neg hr, fsLookup_cons, if_neg hr]; exact ih

lemma fsLookup_append (a b : Fs) (q : String) :
    fsLookup (a ++ b) q = if (fsLookup a q).isSome then fsLookup a q else fsLookup b q := by
  induction a with
  | nil => simp [fsLookup]
  | cons e rest ih =>
    obtain ⟨r, v⟩ := e
    by_cases hr : r = q
    · simp [fsLookup_cons, hr]
    · simp only [List.cons_append, fsLookup_cons, if_neg hr]
      exact ih

lemma fsLookup_fsInsert_self (fs : Fs) (p : String) (v : List Nat) :
    fsLookup (fsInsert fs p v) p = some v := by
  unfold fsInsert
  rw [fsLookup_append, fsLookup_fsErase_self]
  simp [fsLookup_cons]

lemma fsLookup_fsInsert_ne (fs : Fs) (p q : String) (v : List Nat) (h : q ≠ p) :
    fsLookup (fsInsert fs p v) q = fsLookup fs q := by
  unfold fsInsert
  rw [fsLookup_append, fsLookup_fsErase_ne fs p q h]
  cases hq : fsLookup fs q with
  | none =>
    have hpq : ¬ (p = q) := fun hpq => h hpq.symm
    simp [fsLookup_cons, hpq]
    rfl
  | some w => simp

lemma tmpOf_ne (d : String) : tmpOf d ≠ d := by
  intro h
  have hlen : (tmpOf d).data.length = d.data.length := by rw [h]
  rw [tmpOf, String.data_append, List.length_append] at hlen
  have h5 : ((".part") : String).data.length = 5 := rfl
  rw [h5] at hlen
  omega

lemma streamChunks_fst (tmp filename : String) (total : Option Nat) (throttle : Nat → Bool) :
    ∀ (l : List (Nat × List Nat)) (content : List Nat) (wrote : Nat),
      (streamChunks tmp filename total throttle l content wrote).1 =
        content ++ (l.map Prod.snd).flatten := by
  intro l
  induction l with
  | nil => intro c w; simp [streamChunks]
  | cons h t ih =>
    intro c w
    obtain ⟨i, ch⟩ := h
    by_cases hch : ch = []
    · subst hch
      rw [streamChunks, if_pos rfl, ih, List.map_cons, List.flatten_cons, List.nil_append]
    · rw [streamChunks, if_neg hch]
      simp only [ih, List.map_cons, List.flatten_cons, List.append_assoc]

lemma streamChunks_ops_write (tmp filename : String) (total : Option Nat) (throttle : Nat → Bool) :
    ∀ (l : List (Nat × List Nat)) (content : List Nat) (wrote : Nat),
      ∀ op ∈ (streamChunks tmp filename total throttle l content wrote).2.2.2,
        ∃ ch, op = Op.write tmp ch := by
  intro l
  induction l with
  | nil => intro c w op hop; simp [streamChunks] at hop
  | cons h t ih =>
    intro c w op hop
    obtain ⟨i, ch⟩ := h
    by_cases hch : ch = []
    · rw [streamChunks, if_pos hch] at hop
      exact ih _ _ op hop
    · rw [streamChunks, if_neg hch] at hop
      simp only [List.mem_cons] at hop
      rcases hop with hop | hop
      · exact ⟨ch, hop⟩
      · exact ih _ _ op hop

lemma streamChunks_events_phase (tmp filename : String) (total : Option Nat) (throttle : Nat → Bool) :
    ∀ (l : List (Nat × List Nat)) (content : List Nat) (wrote : Nat),
      ∀ e ∈ (streamChunks tmp filename total throttle l content wrote).2.2.1,
        e.phase = ("downloading") ∧ e.filename = filename ∧ e.total = total := by
  intro l
  induction l with
  | nil => intro c w e he; simp [streamChunks] at he
  | cons h t ih =>
    intro c w e he
    obtain ⟨i, ch⟩ := h
    by_cases hch : ch = []
    · rw [streamChunks, if_pos hch] at he
      exact ih _ _ e he
    · rw [streamChunks, if_neg hch] at he
      simp only [List.mem_append] at he
      rcases he with he | he
      · by_cases ht : throttle i = true
        · rw [if_pos ht] at he
          simp only [List.mem_singleton] at he
          subst he
          exact ⟨rfl, rfl, rfl⟩
        · rw [if_neg ht] at he
          simp at he
      · exact ih _ _ e he

lemma fileSize_fsErase_ne (fs : Fs) (p q : String) (h : q ≠ p) :
    fileSize (fsErase fs p) q = fileSize fs q := by
  rw [fileSize, fileSize, fsLookup_fsErase_ne fs p q h]

/-- C2: whenever the transfer phase is reached, the `start` event (always the
first event emitted) carries `total = computeTotal content-length existing`
with `existing` the partial file's size; and `computeTotal` is content-length
plus existing when both are present and `existing > 0`, just content-length
when `existing = 0`, and unknown (`none`) when the header is absent. -/
theorem c2_total_computation (civ hf : String) (probe : ProbeResp) (xfer : XferResp)
    (throttle : Nat → Bool) (renameOk : Bool) (url folderKey : String)
    (override : Option String) (overwrite : Bool) (fs : Fs)
    (hk : folderKey ∈ folderKeys) (hp : probe.status < 400)
    (hns : ¬((fsLookup fs (destOf folderKey
        (resolveFilename override probe.contentDisposition url))).isSome ∧ ¬ overwrite)) :
    (download civ hf probe xfer throttle renameOk url folderKey override overwrite fs).events.head? =
      some ⟨fileSize fs (tmpOf (destOf folderKey (resolveFilename override probe.contentDisposition url))),
        computeTotal probe.contentLength
          (fileSize fs (tmpOf (destOf folderKey (resolveFilename override probe.contentDisposition url)))),
        resolveFilename override probe.contentDisposition url, ("start")⟩ ∧
    (∀ v e, e ≠ 0 → computeTotal (some v) e = some (v + e)) ∧
    (∀ v, computeTotal (some v) 0 = some v) ∧
    (∀ e, computeTotal none e = none) := by
  refine ⟨?_, fun v e he => by simp [computeTotal, he], fun v => by simp [computeTotal], fun e => rfl⟩
  simp only [download]
  rw [if_neg (not_not_intro hk)]
  rw [if_neg (by omega : ¬ probe.status ≥ 400)]
  rw [if_neg hns]
  have hfs1 : fileSize
      (if (fsLookup fs (destOf folderKey (resolveFilename override probe.contentDisposition url))).isSome ∧
          overwrite = true then
        fsErase fs (destOf folderKey (resolveFilename override probe.contentDisposition url))
      else fs)
      (tmpOf (destOf folderKey (resolveFilename override probe.contentDisposition url))) =
      fileSize fs (tmpOf (destOf folderKey (resolveFilename override probe.contentDisposition url))) := by
    split_ifs with hov
    · exact fileSize_fsErase_ne _ _ _ (tmpOf_ne _)
    · rfl
  rw [hfs1]
  split_ifs <;> simp

/-- C1: if a resume was requested (partial file of size `existing > 0`, so a
range header was sent) but the transfer response is status 200, `download`
resets `existing` to 0, emits a `restart` event, opens the partial file in
truncate mode and writes the full body fresh: the final destination file is
exactly the server's body, with the stale partial bytes discarded. -/
theorem c1_restart_on_200 (civ hf : String) (probe : ProbeResp) (xfer : XferResp)
    (throttle : Nat → Bool) (url folderKey : String) (override : Option String)
    (overwrite : Bool) (fs : Fs)
    (hk : folderKey ∈ folderKeys) (hp : probe.status < 400)
    (hns : ¬((fsLookup fs (destOf folderKey
        (resolveFilename override probe.contentDisposition url))).isSome ∧ ¬ overwrite))
    (hex : 0 < fileSize fs (tmpOf (destOf folderKey
        (resolveFilename override probe.contentDisposition url))))
    (h200 : xfer.status = 200) :
    ∀ R, R = download civ hf probe xfer throttle true url folderKey override overwrite fs →
      R.res = .ok (destOf folderKey (resolveFilename override probe.contentDisposition url)) ∧
      (⟨0, computeTotal probe.contentLength (fileSize fs (tmpOf (destOf folderKey
          (resolveFilename override probe.contentDisposition url)))),
        resolveFilename override probe.contentDisposition url, ("restart")⟩ : Event) ∈ R.events ∧
      Op.openW (tmpOf (destOf folderKey
          (resolveFilename override probe.contentDisposition url))) true ∈ R.ops ∧
      fsLookup R.fs (destOf folderKey (resolveFilename override probe.contentDisposition url)) =
        some xfer.chunks.flatten ∧
      fsLookup R.fs (tmpOf (destOf folderKey
          (resolveFilename override probe.contentDisposition url))) = none := by
  intro R hR
  subst hR
  simp only [download]
  rw [if_neg (not_not_intro hk), if_neg (by omega : ¬ probe.status ≥ 400), if_neg hns]
  set F := resolveFilename override probe.contentDisposition url with hF
  set Dst := destOf folderKey F with hDst
  set T := tmpOf Dst with hT
  have hTD : T ≠ Dst := tmpOf_ne Dst
  by_cases hov : (fsLookup fs Dst).isSome ∧ overwrite = true
  · simp only [if_pos hov]
    rw [fileSize_fsErase_ne fs Dst T hTD]
    have hres : fileSize fs T > 0 ∧ xfer.status = 200 := ⟨hex, h200⟩
    simp only [if_pos hres]
    rw [if_neg (by omega : ¬ xfer.status ≥ 400)]
    simp only [Bool.false_eq_true, if_false, Bool.not_false, if_pos rfl, if_true]
    refine ⟨by trivial, ?_, ?_, ?_, ?_⟩
    · simp
    · simp
    · rw [fsLookup_fsInsert_self, streamChunks_fst, List.enum_map_snd, List.nil_append]
    · rw [fsLookup_fsInsert_ne _ _ _ _ hTD, fsLookup_fsErase_self]
  · simp only [if_neg hov]
    have hres : fileSize fs T > 0 ∧ xfer.status = 200 := ⟨hex, h200⟩
    simp only [if_pos hres]
    rw [if_neg (by omega : ¬ xfer.status ≥ 400)]
    simp only [Bool.false_eq_true, if_false, Bool.not_false, if_pos rfl, if_true]
    refine ⟨by trivial, ?_, ?_, ?_, ?_⟩
    · simp
    · simp
    · rw [fsLookup_fsInsert_self, streamChunks_fst, List.enum_map_snd, List.nil_append]
    · rw [fsLookup_fsInsert_ne _ _ _ _ hTD, fsLookup_fsErase_self]

/-- C1 witness: stale partial of one byte, server answers 200 with body
`[1,2],[3]`; the final destination is exactly `[1,2,3]`. -/
theorem c1_restart_on_200_witness :
    (("loras" : String) ∈ folderKeys ∧
      0 < fileSize [(("/workspace/ComfyUI/models/loras/f.bin.part"), [9])]
        (tmpOf (destOf ("loras") (resolveFilename none none ("http://h/f.bin"))))) ∧
    fsLookup (download ("") ("") ⟨200, none, some 4⟩ ⟨200, [[1, 2], [3]]⟩ (fun _ => true) true
        ("http://h/f.bin") ("loras") none false
        [(("/workspace/ComfyUI/models/loras/f.bin.part"), [9])]).fs
      (destOf ("loras") (resolveFilename none none ("http://h/f.bin"))) = some [1, 2, 3] := by
  constructor
  · exact ⟨by decide, by decide⟩
  · have h := (c1_restart_on_200 ("") ("") ⟨200, none, some 4⟩ ⟨200, [[1, 2], [3]]⟩
      (fun _ => true) ("http://h/f.bin") ("loras") none false
      [(("/workspace/ComfyUI/models/loras/f.bin.part"), [9])]
      (by decide) (by decide) (by decide) (by decide) (by decide) _ rfl).2.2.2.1
    rw [h]
    decide

/-- C3 counterexample: on the skip path the single emitted event has phase
`skipped`, not `skip` as the claim (and the spec's five-phase list) states. -/
theorem c3_skip_counterexample :
    (download ("") ("") ⟨200, none, some 4⟩ ⟨200, [[1]]⟩ (fun _ => true) true
        ("http://h/f.bin") ("loras") none false
        [(("/workspace/ComfyUI/models/loras/f.bin"), [7, 7])]).events =
      [⟨2, some 2, ("f.bin"), ("skipped")⟩] ∧
    (∀ e ∈ (download ("") ("") ⟨200, none, some 4⟩ ⟨200, [[1]]⟩ (fun _ => true) true
        ("http://h/f.bin") ("loras") none false
        [(("/workspace/ComfyUI/models/loras/f.bin"), [7, 7])]).events,
      e.phase ≠ ("skip")) :=
  ⟨by decide, by decide⟩

/-- C3 amended: with an existing destination and `overwrite = false`,
`download` emits exactly one event, of phase `skipped` (the code's name for
the spec's `skip` phase), carrying the existing file's size as both
downloaded and total, returns the existing destination path, leaves the
filesystem untouched, and performs no operation beyond the probe request —
in particular no transfer-phase network request. -/
theorem c3_skip_amended (civ hf : String) (probe : ProbeResp) (xfer : XferResp)
    (throttle : Nat → Bool) (renameOk : Bool) (url folderKey : String)
    (override : Option String) (fs : Fs)
    (hk : folderKey ∈ folderKeys) (hp : probe.status < 400)
    (hdest : (fsLookup fs (destOf folderKey
        (resolveFilename override probe.contentDisposition url))).isSome) :
    download civ hf probe xfer throttle renameOk url folderKey override false fs =
      ⟨.ok (destOf folderKey (resolveFilename override probe.contentDisposition url)), fs,
        [⟨fileSize fs (destOf folderKey (resolveFilename override probe.contentDisposition url)),
          some (fileSize fs (destOf folderKey (resolveFilename override probe.contentDisposition url))),
          resolveFilename override probe.contentDisposition url, ("skipped")⟩],
        [Op.get url (headersForUrl civ hf url) none]⟩ := by
  simp only [download]
  rw [if_neg (not_not_intro hk), if_neg (by omega : ¬ probe.status ≥ 400)]
  rw [if_pos ⟨hdest, by simp⟩]

/-- C3 amended witness. -/
theorem c3_skip_amended_witness :
    (("loras" : String) ∈ folderKeys ∧
      (fsLookup [(("/workspace/ComfyUI/models/loras/f.bin"), [7, 7])]
        (destOf ("loras") (resolveFilename none none ("http://h/f.bin")))).isSome) ∧
    (download ("") ("") ⟨200, none, some 4⟩ ⟨200, [[1]]⟩ (fun _ => true) true
        ("http://h/f.bin") ("loras") none false
        [(("/workspace/ComfyUI/models/loras/f.bin"), [7, 7])]).events =
      [⟨2, some 2, ("f.bin"), ("skipped")⟩] := by
  constructor
  · exact ⟨by decide, by decide⟩
  · rw [c3_skip_amended ("") ("") ⟨200, none, some 4⟩ ⟨200, [[1]]⟩ (fun _ => true) true
      ("http://h/f.bin") ("loras") none
      [(("/workspace/ComfyUI/models/loras/f.bin"), [7, 7])] (by decide) (by decide) (by decide)]
    decide

/-- C2 witness: partial of 1 byte plus content-length 4 yields a `start`
event with total 5. -/
theorem c2_total_computation_witness :
    (("loras" : String) ∈ folderKeys ∧
      ¬((fsLookup [(("/workspace/ComfyUI/models/loras/f.bin.part"), [9])]
          (destOf ("loras") (resolveFilename none none ("http://h/f.bin")))).isSome ∧
        ¬ (false : Bool))) ∧
    (download ("") ("") ⟨200, none, some 4⟩ ⟨206, [[1, 2]]⟩ (fun _ => true) true
        ("http://h/f.bin") ("loras") none false
        [(("/workspace/ComfyUI/models/loras/f.bin.part"), [9])]).events.head? =
      some ⟨1, some 5, ("f.bin"), ("start")⟩ := by
  constructor
  · exact ⟨by decide, by decide⟩
  · have h := (c2_total_computation ("") ("") ⟨200, none, some 4⟩ ⟨206, [[1, 2]]⟩ (fun _ => true)
      true ("http://h/f.bin") ("loras") none false
      [(("/workspace/ComfyUI/models/loras/f.bin.part"), [9])]
      (by decide) (by decide) (by decide)).1
    rw [h]
    decide

/-- C10: with an existing destination and `overwrite = true`, `download`
unlinks the destination but leaves a stale partial file in place, and the
transfer then resumes from the stale partial's size: the `Range` header is
sent with that offset, the partial is opened in append mode, the `start`
event reports the stale offset, and (when the server honors the range) the
final file is the stale partial bytes followed by the response body — not a
download from zero. -/
theorem c10_overwrite_stale_resume (civ hf : String) (probe : ProbeResp) (xfer : XferResp)
    (throttle : Nat → Bool) (url folderKey : String) (override : Option String) (fs : Fs)
    (hk : folderKey ∈ folderKeys) (hp : probe.status < 400)
    (hdest : (fsLookup fs (destOf folderKey
        (resolveFilename override probe.contentDisposition url))).isSome)
    (hex : 0 < fileSize fs (tmpOf (destOf folderKey
        (resolveFilename override probe.contentDisposition url))))
    (h206 : xfer.status = 206) :
    ∀ R, R = download civ hf probe xfer throttle true url folderKey override true fs →
      Op.unlink (destOf folderKey (resolveFilename override probe.contentDisposition url)) ∈ R.ops ∧
      Op.get url (headersForUrl civ hf url)
        (some (fileSize fs (tmpOf (destOf folderKey
          (resolveFilename override probe.contentDisposition url))))) ∈ R.ops ∧
      Op.openW (tmpOf (destOf folderKey
          (resolveFilename override probe.contentDisposition url))) false ∈ R.ops ∧
      R.events.head? = some ⟨fileSize fs (tmpOf (destOf folderKey
          (resolveFilename override probe.contentDisposition url))),
        computeTotal probe.contentLength (fileSize fs (tmpOf (destOf folderKey
          (resolveFilename override probe.contentDisposition url)))),
        resolveFilename override probe.contentDisposition url, ("start")⟩ ∧
      fsLookup R.fs (destOf folderKey (resolveFilename override probe.contentDisposition url)) =
        some ((fsLookup fs (tmpOf (destOf folderKey
          (resolveFilename override probe.contentDisposition url)))).getD [] ++
          xfer.chunks.flatten) := by
  intro R hR
  subst hR
  simp only [download]
  rw [if_neg (not_not_intro hk), if_neg (by omega : ¬ probe.status ≥ 400)]
  simp only [not_true, and_false, if_false, and_true]
  set F := resolveFilename override probe.contentDisposition url with hF
  set Dst := destOf folderKey F with hDst
  set T := tmpOf Dst with hT
  have hTD : T ≠ Dst := tmpOf_ne Dst
  simp only [if_pos hdest]
  rw [fileSize_fsErase_ne fs Dst T hTD]
  have hnres : ¬ (fileSize fs T > 0 ∧ xfer.status = 200) := by
    rintro ⟨-, h2⟩
    omega
  simp only [if_neg hnres]
  rw [if_neg (by omega : ¬ xfer.status ≥ 400)]
  rw [fsLookup_fsErase_ne fs Dst T hTD]
  simp only [if_pos hex, decide_eq_true hex, Bool.not_true, eq_self_iff_true, if_true]
  refine ⟨by simp, by simp, by simp, by simp, ?_⟩
  rw [fsLookup_fsInsert_self, streamChunks_fst, List.enum_map_snd]

/-- Path discipline of one operation: writes and write-opens touch only the
partial path `T`, unlink only the destination `D`, and a rename is exactly
`T → D`. -/
def opPathsOk (T D : String) : Op → Prop
  | Op.get _ _ _ => True
  | Op.unlink p => p = D
  | Op.openW p _ => p = T
  | Op.write p _ => p = T
  | Op.rename s d => s = T ∧ d = D

lemma streamChunks_write_path {tmp filename : String} {total : Option Nat}
    {throttle : Nat → Bool} {l : List (Nat × List Nat)} {content : List Nat} {wrote : Nat}
    {p : String} {ch : List Nat}
    (h : Op.write p ch ∈ (streamChunks tmp filename total throttle l content wrote).2.2.2) :
    p = tmp := by
  obtain ⟨ch2, hch⟩ := streamChunks_ops_write tmp filename total throttle l content wrote _ h
  injection hch with h1 h2

lemma streamChunks_mem_unlink_iff {tmp filename : String} {total : Option Nat}
    {throttle : Nat → Bool} {l : List (Nat × List Nat)} {content : List Nat} {wrote : Nat}
    {p : String} :
    Op.unlink p ∈ (streamChunks tmp filename total throttle l content wrote).2.2.2 ↔ False := by
  refine ⟨fun h => ?_, False.elim⟩
  obtain ⟨ch, hch⟩ := streamChunks_ops_write tmp filename total throttle l content wrote _ h
  exact Op.noConfusion hch

lemma streamChunks_mem_openW_iff {tmp filename : String} {total : Option Nat}
    {throttle : Nat → Bool} {l : List (Nat × List Nat)} {content : List Nat} {wrote : Nat}
    {p : String} {b : Bool} :
    Op.openW p b ∈ (streamChunks tmp filename total throttle l content wrote).2.2.2 ↔ False := by
  refine ⟨fun h => ?_, False.elim⟩
  obtain ⟨ch, hch⟩ := streamChunks_ops_write tmp filename total throttle l content wrote _ h
  exact Op.noConfusion hch

lemma streamChunks_mem_rename_iff {tmp filename : String} {total : Option Nat}
    {throttle : Nat → Bool} {l : List (Nat × List Nat)} {content : List Nat} {wrote : Nat}
    {a b : String} :
    Op.rename a b ∈ (streamChunks tmp filename total throttle l content wrote).2.2.2 ↔ False := by
  refine ⟨fun h => ?_, False.elim⟩
  obtain ⟨ch, hch⟩ := streamChunks_ops_write tmp filename total throttle l content wrote _ h
  exact Op.noConfusion hch

lemma streamChunks_mem_get_iff {tmp filename : String} {total : Option Nat}
    {throttle : Nat → Bool} {l : List (Nat × List Nat)} {content : List Nat} {wrote : Nat}
    {u : String} {a : Option String} {r : Option Nat} :
    Op.get u a r ∈ (streamChunks tmp filename total throttle l content wrote).2.2.2 ↔ False := by
  refine ⟨fun h => ?_, False.elim⟩
  obtain ⟨ch, hch⟩ := streamChunks_ops_write tmp filename total throttle l content wrote _ h
  exact Op.noConfusion hch

set_option maxHeartbeats 1600000 in
/-- Every operation of any `download` run obeys the path discipline. -/
lemma download_ops_paths (civ hf : String) (probe : ProbeResp) (xfer : XferResp)
    (throttle : Nat → Bool) (renameOk : Bool) (url folderKey : String)
    (override : Option String) (overwrite : Bool) (fs : Fs) :
    ∀ op ∈ (download civ hf probe xfer throttle renameOk url folderKey override overwrite fs).ops,
      opPathsOk (tmpOf (destOf folderKey (resolveFilename override probe.contentDisposition url)))
        (destOf folderKey (resolveFilename override probe.contentDisposition url)) op := by
  intro op hop
  simp only [download] at hop
  set F := resolveFilename override probe.contentDisposition url
  set Dst := destOf folderKey F
  set T := tmpOf Dst
  split_ifs at hop
  all_goals
    cases op with
    | get u a r => trivial
    | unlink p =>
      simp only [List.mem_append, List.mem_cons, List.mem_singleton, List.not_mem_nil,
        streamChunks_mem_unlink_iff, Op.unlink.injEq, or_false, false_or, reduceCtorEq] at hop <;>
      first
      | exact hop
      | exact hop.elim
    | openW p b =>
      simp only [List.mem_append, List.mem_cons, List.mem_singleton, List.not_mem_nil,
        streamChunks_mem_openW_iff, Op.openW.injEq, or_false, false_or, reduceCtorEq] at hop <;>
      first
      | exact hop.1
      | exact hop.elim
    | write p ch =>
      simp only [List.mem_append, List.mem_cons, List.mem_singleton, List.not_mem_nil,
        Op.write.injEq, or_false, false_or, reduceCtorEq] at hop <;>
      first
      | exact streamChunks_write_path hop
      | exact hop.elim
    | rename a b =>
      simp only [List.mem_append, List.mem_cons, List.mem_singleton, List.not_mem_nil,
        streamChunks_mem_rename_iff, Op.rename.injEq, or_false, false_or, reduceCtorEq] at hop <;>
      first
      | exact hop
      | exact hop.elim

/-- C10 witness: destination and stale partial of one byte; overwrite true;
the ranged request carries offset 1. -/
theorem c10_overwrite_stale_resume_witness :
    (("loras" : String) ∈ folderKeys ∧
      (fsLookup [(("/workspace/ComfyUI/models/loras/f.bin"), [7, 7]),
          (("/workspace/ComfyUI/models/loras/f.bin.part"), [9])]
        (destOf ("loras") (resolveFilename none none ("http://h/f.bin")))).isSome ∧
      0 < fileSize [(("/workspace/ComfyUI/models/loras/f.bin"), [7, 7]),
          (("/workspace/ComfyUI/models/loras/f.bin.part"), [9])]
        (tmpOf (destOf ("loras") (resolveFilename none none ("http://h/f.bin"))))) ∧
    Op.get ("http://h/f.bin") (headersForUrl ("") ("") ("http://h/f.bin"))
      (some (fileSize [(("/workspace/ComfyUI/models/loras/f.bin"), [7, 7]),
          (("/workspace/ComfyUI/models/loras/f.bin.part"), [9])]
        (tmpOf (destOf ("loras") (resolveFilename none none ("http://h/f.bin")))))) ∈
      (download ("") ("") ⟨200, none, some 4⟩ ⟨206, [[1, 2]]⟩ (fun _ => true) true
        ("http://h/f.bin") ("loras") none true
        [(("/workspace/ComfyUI/models/loras/f.bin"), [7, 7]),
          (("/workspace/ComfyUI/models/loras/f.bin.part"), [9])]).ops :=
  ⟨⟨by decide, by decide, by decide⟩,
    (c10_overwrite_stale_resume ("") ("") ⟨200, none, some 4⟩ ⟨206, [[1, 2]]⟩ (fun _ => true)
      ("http://h/f.bin") ("loras") none
      [(("/workspace/ComfyUI/models/loras/f.bin"), [7, 7]),
        (("/workspace/ComfyUI/models/loras/f.bin.part"), [9])]
      (by decide) (by decide) (by decide) (by decide) (by decide) _ rfl).2.1⟩

/-- C9: all streamed bytes go only to the partial path — every write-open and
write in the trace names the `.part` path, every rename is exactly partial →
destination — and when the rename fails the error propagates with the
partial file still present and nothing at the destination. -/
theorem c9_write_only_part_path (civ hf : String) (probe : ProbeResp) (xfer : XferResp)
    (throttle : Nat → Bool) (renameOk : Bool) (url folderKey : String)
    (override : Option String) (overwrite : Bool) (fs : Fs) :
    ∀ R, R = download civ hf probe xfer throttle renameOk url folderKey override overwrite fs →
      (∀ p b, Op.openW p b ∈ R.ops →
        p = tmpOf (destOf folderKey (resolveFilename override probe.contentDisposition url))) ∧
      (∀ p ch, Op.write p ch ∈ R.ops →
        p = tmpOf (destOf folderKey (resolveFilename override probe.contentDisposition url))) ∧
      (∀ a b, Op.rename a b ∈ R.ops →
        a = tmpOf (destOf folderKey (resolveFilename override probe.contentDisposition url)) ∧
        b = destOf folderKey (resolveFilename override probe.contentDisposition url)) ∧
      (folderKey ∈ folderKeys → probe.status < 400 →
        ¬((fsLookup fs (destOf folderKey
            (resolveFilename override probe.contentDisposition url))).isSome ∧ ¬ overwrite) →
        xfer.status < 400 → renameOk = false →
        R.res = .error ("OSError: rename") ∧
        (fsLookup R.fs (tmpOf (destOf folderKey
          (resolveFilename override probe.contentDisposition url)))).isSome ∧
        fsLookup R.fs (destOf folderKey
          (resolveFilename override probe.contentDisposition url)) = none) := by
  intro R hR
  refine ⟨?_, ?_, ?_, ?_⟩
  · intro p b h
    exact download_ops_paths civ hf probe xfer throttle renameOk url folderKey override
      overwrite fs _ (hR ▸ h)
  · intro p ch h
    exact download_ops_paths civ hf probe xfer throttle renameOk url folderKey override
      overwrite fs _ (hR ▸ h)
  · intro a b h
    exact download_ops_paths civ hf probe xfer throttle renameOk url folderKey override
      overwrite fs _ (hR ▸ h)
  · intro hk hp hns hx hrn
    subst hR
    subst hrn
    simp only [download]
    rw [if_neg (not_not_intro hk), if_neg (by omega : ¬ probe.status ≥ 400), if_neg hns]
    set F := resolveFilename override probe.contentDisposition url with hF
    set Dst := destOf folderKey F with hDst
    set T := tmpOf Dst with hT
    have hTD : T ≠ Dst := tmpOf_ne Dst
    by_cases hov : (fsLookup fs Dst).isSome ∧ overwrite = true
    · simp only [if_pos hov]
      rw [if_neg (by omega : ¬ xfer.status ≥ 400)]
      simp only [Bool.false_eq_true, if_false]
      refine ⟨by trivial, ?_, ?_⟩
      · rw [fsLookup_fsInsert_self]
        rfl
      · rw [fsLookup_fsInsert_ne _ _ _ _ (Ne.symm hTD), fsLookup_fsErase_self]
    · simp only [if_neg hov]
      rw [if_neg (by omega : ¬ xfer.status ≥ 400)]
      simp only [Bool.false_eq_true, if_false]
      have hnone : fsLookup fs Dst = none := by
        cases hq : fsLookup fs Dst with
        | none => rfl
        | some v =>
          exfalso
          cases hw : overwrite with
          | false => exact hns ⟨by rw [hq]; rfl, by rw [hw]; simp⟩
          | true => exact hov ⟨by rw [hq]; rfl, hw⟩
      refine ⟨by trivial, ?_, ?_⟩
      · rw [fsLookup_fsInsert_self]
        rfl
      · rw [fsLookup_fsInsert_ne _ _ _ _ (Ne.symm hTD)]
        exact hnone

/-- C9 witness: rename failure on a fresh download leaves the partial file
and nothing at the destination. -/
theorem c9_write_only_part_path_witness :
    (("loras" : String) ∈ folderKeys) ∧
    (download ("") ("") ⟨200, none, some 5⟩ ⟨200, [[1, 2], [3]]⟩ (fun _ => true) false
        ("http://h/f.bin") ("loras") none false []).res = .error ("OSError: rename") ∧
    fsLookup (download ("") ("") ⟨200, none, some 5⟩ ⟨200, [[1, 2], [3]]⟩ (fun _ => true) false
        ("http://h/f.bin") ("loras") none false []).fs
      (destOf ("loras") (resolveFilename none none ("http://h/f.bin"))) = none := by
  have h := (c9_write_only_part_path ("") ("") ⟨200, none, some 5⟩ ⟨200, [[1, 2], [3]]⟩
    (fun _ => true) false ("http://h/f.bin") ("loras") none false [] _ rfl).2.2.2
    (by decide) (by decide) (by decide) (by decide) rfl
  exact ⟨by decide, h.1, h.2.2⟩

/-! ### Batch parsing (`_parse_batch_lines`) and the batch retry loop -/

/-- Python `str.splitlines` line-boundary characters. -/
def isLineBoundary (c : Char) : Bool :=
  c = '\n' || c = '\r' || c = '\x0b' || c = '\x0c' ||
  c = Char.ofNat 28 || c = Char.ofNat 29 || c = Char.ofNat 30 ||
  c = Char.ofNat 133 || c = Char.ofNat 8232 || c = Char.ofNat 8233

/-- `str.splitlines()`: split at line boundaries (`\r\n` counts as one);
a terminal boundary adds no trailing empty line.  `cur` is the current line,
reversed. -/
def splitlinesGo : List Char → List Char → List (List Char)
  | [], cur => if cur = [] then [] else [cur.reverse]
  | '\r' :: '\n' :: rest, cur => cur.reverse :: splitlinesGo rest []
  | c :: rest, cur =>
    if isLineBoundary c then cur.reverse :: splitlinesGo rest []
    else splitlinesGo rest (c :: cur)

/-- `str.split(None, 1)`: drop leading whitespace; first token up to the
first whitespace run; remainder after that run (empty remainder omitted). -/
def pySplit1 (l : List Char) : List (List Char) :=
  let l1 := l.dropWhile pyIsSpace
  if l1 = [] then []
  else
    let tok := l1.takeWhile (fun c => ! pyIsSpace c)
    let rest := (l1.dropWhile (fun c => ! pyIsSpace c)).dropWhile pyIsSpace
    if rest = [] then [tok] else [tok, rest]

/-- Embedding of `_parse_batch_lines`. -/
def parseBatchLines (text : String) : List (Option String × String) :=
  (splitlinesGo text.data []).filterMap (fun line =>
    let s := stripBy pyIsSpace line
    if s = [] then none
    else if s.head? = some '#' then none
    else
      match pySplit1 s with
      | [a, b] =>
        if String.mk a ∈ folderKeys then
          some (some (String.mk a), String.mk (stripBy pyIsSpace b))
        else some (none, String.mk s)
      | _ => some (none, String.mk s))

/-- The claim's per-line rule, stated with the first whitespace run directly:
a non-empty, non-`#` line whose first token is a known category key and which
has a non-empty remainder yields `(key, remainder)`; otherwise the whole
(stripped) line is the URL with no override. -/
def lineItemSpec (line : List Char) : Option (Option String × String) :=
  let s := stripBy pyIsSpace line
  if s = [] then none
  else if s.head? = some '#' then none
  else
    let tok := s.takeWhile (fun c => ! pyIsSpace c)
    let rest := (s.dropWhile (fun c => ! pyIsSpace c)).dropWhile pyIsSpace
    if String.mk tok ∈ folderKeys ∧ rest ≠ [] then some (some (String.mk tok), String.mk rest)
    else some (none, String.mk s)

lemma dropWhile_head_false (p : Char → Bool) (l : List Char) (h : l.dropWhile p = l)
    (c : Char) (hc : l.head? = some c) : p c = false := by
  cases l with
  | nil => simp at hc
  | cons x xs =>
    simp only [List.head?_cons, Option.some.injEq] at hc
    exact hc ▸ head_dropWhile_false p (x :: xs) x xs h

lemma stripBy_reverse_dropWhile (p : Char → Bool) (l : List Char) :
    (stripBy p l).reverse.dropWhile p = (stripBy p l).reverse := by
  rw [stripBy, List.reverse_reverse, List.dropWhile_idempotent]

/-- A whitespace-stripped line's remainder after the first token needs no
further stripping. -/
lemma strip_rest_of_stripped (p : Char → Bool) (s : List Char) (hs : stripBy p s = s)
    (hne : (s.dropWhile (fun c => ! p c)).dropWhile p ≠ []) :
    stripBy p ((s.dropWhile (fun c => ! p c)).dropWhile p) =
      (s.dropWhile (fun c => ! p c)).dropWhile p := by
  set rest := (s.dropWhile (fun c => ! p c)).dropWhile p with hrest
  have hlead : rest.dropWhile p = rest := by
    rw [hrest, List.dropWhile_idempotent]
  have hsuf : rest <:+ s := by
    have h1 : rest <:+ s.dropWhile (fun c => ! p c) := by
      rw [hrest]; exact List.dropWhile_suffix p
    have h2 : s.dropWhile (fun c => ! p c) <:+ s := List.dropWhile_suffix _
    exact h1.trans h2
  have hlast : rest.getLast? = s.getLast? := by
    obtain ⟨t, ht⟩ := hsuf
    rw [← ht, List.getLast?_append_of_ne_nil _ hne]
  have htail : rest.reverse.dropWhile p = rest.reverse := by
    apply dropWhile_eq_self_of_headq
    intro c hc
    rw [List.head?_reverse, hlast, ← List.head?_reverse] at hc
    have hsrev : s.reverse.dropWhile p = s.reverse := by
      have := stripBy_reverse_dropWhile p s
      rw [hs] at this
      exact this
    exact dropWhile_head_false p s.reverse hsrev c hc
  simp only [stripBy]
  rw [hlead, htail, List.reverse_reverse]

/-- C8: `_parse_batch_lines` maps each non-empty, non-comment line to one
item by the first-whitespace-run rule of the claim (known first token with a
non-empty remainder is a category override, otherwise the whole line is the
URL), comment and blank lines produce nothing, and the claim's concrete
example parses as stated. -/
theorem c8_parse_batch (text : String) :
    parseBatchLines text = (splitlinesGo text.data []).filterMap lineItemSpec ∧
    parseBatchLines ("loras http://x\n# comment\nhttp://y\ncontrolnet   http://z") =
      [(some ("loras"), ("http://x")), (none, ("http://y")),
        (some ("controlnet"), ("http://z"))] := by
  constructor
  · unfold parseBatchLines
    congr 1
    funext line
    simp only [lineItemSpec]
    by_cases h0 : stripBy pyIsSpace line = []
    · rw [if_pos h0, if_pos h0]
    · rw [if_neg h0, if_neg h0]
      by_cases h1 : (stripBy pyIsSpace line).head? = some '#'
      · rw [if_pos h1, if_pos h1]
      · rw [if_neg h1, if_neg h1]
        set s := stripBy pyIsSpace line with hsdef
        have hs : stripBy pyIsSpace s = s := by rw [hsdef]; exact stripBy_idem _ _
        have hl1 : s.dropWhile pyIsSpace = s := by
          have := stripBy_dropWhile pyIsSpace line
          rw [← hsdef] at this
          exact this
        rw [pySplit1]
        simp only [hl1, if_neg h0]
        by_cases hrest : (s.dropWhile (fun c => ! pyIsSpace c)).dropWhile pyIsSpace = []
        · rw [if_pos hrest]
          dsimp only
          rw [if_neg (fun hcon => hcon.2 hrest)]
        · rw [if_neg hrest]
          dsimp only
          by_cases hkey : String.mk (s.takeWhile (fun c => ! pyIsSpace c)) ∈ folderKeys
          · rw [if_pos hkey, if_pos ⟨hkey, hrest⟩]
            rw [strip_rest_of_stripped pyIsSpace s hs hrest]
          · rw [if_neg hkey, if_neg (fun hcon => hkey hcon.1)]
  · decide

/-- Retry setting of `_do_batch` (`MAX_RETRIES = 2`). -/
def MAX_RETRIES : Nat := 2

/-- The attempt loop of `_do_batch` for one item, over the attempt numbers
`range(1, MAX_RETRIES + 2)`.  `att a` is the outcome of the `download` call
on attempt `a`; returns (success, last error, attempts actually made). -/
def tryAttempts (att : Nat → Except String String) :
    List Nat → Option String → Bool × Option String × Nat
  | [], lastErr => (false, lastErr, 0)
  | a :: rest, lastErr =>
    match att a with
    | .ok _ => (true, lastErr, 1)
    | .error e =>
      let r := tryAttempts att rest (some e)
      (r.1, r.2.1, r.2.2 + 1)

/-- One item of the batch loop: attempts `1..MAX_RETRIES+1`. -/
def runItem (att : Nat → Except String String) : Bool × Option String × Nat :=
  tryAttempts att (List.range' 1 (MAX_RETRIES + 1)) none

/-- Embedding of the `_do_batch` item loop.  `att i a` is the outcome of the
`download` call for item `i` on attempt `a`; items are indexed from `start`.
Returns (fails, fail_list, attempts made per item). -/
def doBatch (defaultFolder : String) (att : Nat → Nat → Except String String) :
    List (Option String × String) → Nat → Nat × List (String × String × String) × List Nat
  | [], _ => (0, [], [])
  | (fk, u) :: rest, i =>
    let folderKey := fk.getD defaultFolder
    let url := pyStrip u
    let r := runItem (att i)
    let tail := doBatch defaultFolder att rest (i + 1)
    if r.1 then (tail.1, tail.2.1, r.2.2 :: tail.2.2)
    else (tail.1 + 1, (folderKey, url, (r.2.1).getD ("")) :: tail.2.1, r.2.2 :: tail.2.2)

lemma runItem_eq (att : Nat → Except String String) :
    runItem att =
      match att 1 with
      | .ok _ => (true, none, 1)
      | .error e1 =>
        match att 2 with
        | .ok _ => (true, some e1, 2)
        | .error e2 =>
          match att 3 with
          | .ok _ => (true, some e2, 3)
          | .error e3 => (false, some e3, 3) := by
  have hr : List.range' 1 (MAX_RETRIES + 1) = [1, 2, 3] := rfl
  rw [runItem, hr]
  cases h1 : att 1 <;> cases h2 : att 2 <;> cases h3 : att 3 <;>
    simp [tryAttempts, h1, h2, h3]

/-- C6: every batch item is attempted at most `MAX_RETRIES + 1 = 3` times,
every item of the batch is processed (one attempt count per item), the
failure list consists exactly of the items whose three attempts all fail —
each appearing once, with the default-or-override folder, the stripped URL
and the *last* attempt's error message — and the failure counter equals the
failure list's length.  An item succeeding on any attempt contributes no
failure entry. -/
theorem c6_batch_retry (defaultFolder : String) (att : Nat → Nat → Except String String)
    (items : List (Option String × String)) (start : Nat) :
    ∀ res, res = doBatch defaultFolder att items start →
      res.2.2.length = items.length ∧
      (∀ n ∈ res.2.2, n ≤ MAX_RETRIES + 1) ∧
      res.2.1 = (List.enumFrom start items).filterMap (fun je =>
        match att je.1 1, att je.1 2, att je.1 3 with
        | .error _, .error _, .error e3 =>
          some ((je.2.1).getD defaultFolder, pyStrip je.2.2, e3)
        | _, _, _ => none) ∧
      res.1 = res.2.1.length := by
  intro res hres
  subst hres
  induction items generalizing start with
  | nil => exact ⟨rfl, fun n hn => absurd hn (List.not_mem_nil n), rfl, rfl⟩
  | cons it rest ih =>
    obtain ⟨fk, u⟩ := it
    obtain ⟨ihlen, ihbound, ihlist, ihcount⟩ := ih (start + 1)
    rw [doBatch]
    rw [List.enumFrom_cons, List.filterMap_cons]
    cases h1 : att start 1 with
    | ok v =>
      simp only [runItem_eq, h1, eq_self_iff_true, if_true]
      refine ⟨by simp [ihlen], ?_, by simpa using ihlist, by simpa using ihcount⟩
      intro n hn
      simp only [List.mem_cons] at hn
      rcases hn with hn | hn
      · subst hn; decide
      · exact ihbound n hn
    | error e1 =>
      cases h2 : att start 2 with
      | ok v =>
        simp only [runItem_eq, h1, h2, eq_self_iff_true, if_true]
        refine ⟨by simp [ihlen], ?_, by simpa using ihlist, by simpa using ihcount⟩
        intro n hn
        simp only [List.mem_cons] at hn
        rcases hn with hn | hn
        · subst hn; decide
        · exact ihbound n hn
      | error e2 =>
        cases h3 : att start 3 with
        | ok v =>
          simp only [runItem_eq, h1, h2, h3, eq_self_iff_true, if_true]
          refine ⟨by simp [ihlen], ?_, by simpa using ihlist, by simpa using ihcount⟩
          intro n hn
          simp only [List.mem_cons] at hn
          rcases hn with hn | hn
          · subst hn; decide
          · exact ihbound n hn
        | error e3 =>
          simp only [runItem_eq, h1, h2, h3, Bool.false_eq_true, if_false]
          refine ⟨by simp [ihlen], ?_, by simpa using ihlist, by simp [ihcount]⟩
          intro n hn
          simp only [List.mem_cons] at hn
          rcases hn with hn | hn
          · subst hn; decide
          · exact ihbound n hn

/-- C6 witness: item 0 succeeds only on attempt 3 (no failure entry); item 1
fails all three attempts and is recorded once with the last error. -/
theorem c6_batch_retry_witness :
    doBatch ("checkpoints")
        (fun i a =>
          if i = 0 then (if a = 3 then .ok ("p") else .error ("boom"))
          else .error ((("err") ++ (Nat.toDigits 10 a).asString)))
        [(none, ("http://a")), (some ("loras"), ("http://b"))] 0 =
      (1, [(("loras"), ("http://b"), ("err3"))], [3, 3]) ∧
    (doBatch ("checkpoints")
        (fun i a =>
          if i = 0 then (if a = 3 then .ok ("p") else .error ("boom"))
          else .error ((("err") ++ (Nat.toDigits 10 a).asString)))
        [(none, ("http://a")), (some ("loras"), ("http://b"))] 0).2.1 =
      (List.enumFrom 0 [((none : Option String), ("http://a")), (some ("loras"), ("http://b"))]).filterMap
        (fun je =>
          match (fun (i a : Nat) =>
              if i = 0 then (if a = 3 then Except.ok ("p") else Except.error ("boom"))
              else Except.error ((("err") ++ (Nat.toDigits 10 a).asString))) je.1 1,
            (fun (i a : Nat) =>
              if i = 0 then (if a = 3 then Except.ok ("p") else Except.error ("boom"))
              else Except.error ((("err") ++ (Nat.toDigits 10 a).asString))) je.1 2,
            (fun (i a : Nat) =>
              if i = 0 then (if a = 3 then Except.ok ("p") else Except.error ("boom"))
              else Except.error ((("err") ++ (Nat.toDigits 10 a).asString))) je.1 3 with
          | .error _, .error _, .error e3 =>
            some ((je.2.1).getD ("checkpoints"), pyStrip je.2.2, e3)
          | _, _, _ => none) :=
  ⟨by decide,
    (c6_batch_retry ("checkpoints")
      (fun i a =>
        if i = 0 then (if a = 3 then .ok ("p") else .error ("boom"))
        else .error ((("err") ++ (Nat.toDigits 10 a).asString)))
      [(none, ("http://a")), (some ("loras"), ("http://b"))] 0 _ rfl).2.2.1⟩

end MD
